import Mathlib

/-!
Verification of `create-service-accounts/gen_sa_accounts.py`.

The Python program is shallowly embedded below.  Pure helpers become Lean
functions; every effectful routine becomes a function from its remote
observations (modelled as explicit inputs) to the list of side effects it
performs, in order.  Randomness (`random.choice`) is modelled by an explicit
choice oracle `pick : Nat → Nat`; the character actually drawn for index
`k` is the source string indexed at `pick k` reduced modulo the string
length, so every possible run of the Python code corresponds to some oracle.
-/

namespace GenSA

/-! ### Generic list lemmas used throughout -/

theorem getD_mem_of_lt {α : Type} (l : List α) (n : Nat) (d : α) (h : n < l.length) :
    l.getD n d ∈ l := by
  induction l generalizing n with
  | nil => simp at h
  | cons a t ih =>
    cases n with
    | zero => simp [List.getD]
    | succ m =>
      have hm : m < t.length := Nat.lt_of_succ_lt_succ (by simpa using h)
      simp only [List.getD_cons_succ]
      exact List.mem_cons_of_mem a (ih m hm)

theorem filterMap_ite_eq_filter_map {α β : Type} (p : α → Bool) (g : α → β) (l : List α) :
    l.filterMap (fun a => if p a then some (g a) else none) = (l.filter p).map g := by
  induction l with
  | nil => rfl
  | cons a t ih =>
    by_cases hp : p a
    · simp [List.filterMap_cons, List.filter_cons, hp, ih]
    · simp [List.filterMap_cons, List.filter_cons, hp, ih]

theorem filterMap_ite_eq_filter {α : Type} (p : α → Bool) (l : List α) :
    l.filterMap (fun a => if p a then some a else none) = l.filter p := by
  have h := filterMap_ite_eq_filter_map p id l
  simpa using h

theorem filterMap_const_none {α β : Type} (l : List α) :
    l.filterMap (fun _ => (none : Option β)) = [] := by
  induction l with
  | nil => rfl
  | cons a t ih => simp [List.filterMap_cons, ih]

theorem filterMap_sublist_map {α β : Type} (f : α → Option β) (g : α → β)
    (h : ∀ x y, f x = some y → y = g x) :
    ∀ l : List α, List.Sublist (l.filterMap f) (l.map g) := by
  intro l
  induction l with
  | nil => simp
  | cons a t ih =>
    cases hfa : f a with
    | none => simp only [List.filterMap_cons, hfa, List.map_cons]; exact ih.cons (g a)
    | some y =>
      have hy : y = g a := h a y hfa
      simp only [List.filterMap_cons, hfa, List.map_cons, hy]
      exact ih.cons₂ (g a)

theorem find?_key_unique {α κ : Type} [DecidableEq κ] (key : α → κ) :
    ∀ (l : List α) (x : α), x ∈ l → (l.map key).Nodup →
      l.find? (fun b => key b == key x) = some x := by
  intro l
  induction l with
  | nil => intro x hx; cases hx
  | cons b t ih =>
    intro x hx hnd
    have hnd' : (key b) ∉ t.map key ∧ (t.map key).Nodup := by
      simpa using hnd
    by_cases hb : key b = key x
    · have hxb : x = b := by
        rcases List.mem_cons.mp hx with h | h
        · exact h
        · exfalso
          exact hnd'.1 (hb ▸ (List.mem_map.mpr ⟨x, h, rfl⟩))
      rw [List.find?_cons_of_pos _ (by simp [hb])]
      rw [hxb]
    · have hxt : x ∈ t := by
        rcases List.mem_cons.mp hx with h | h
        · exact absurd (congrArg key h.symm) hb
        · exact h
      rw [List.find?_cons_of_neg _ (by simp [hb])]
      exact ih x hxt hnd'.2

theorem filter_filterMap_single {α β : Type} [DecidableEq α]
    (l : List α) (x : α) (F : α → Option β) (q : β → Bool) (y : β)
    (hx : x ∈ l) (hnd : l.Nodup) (hFx : F x = some y) (hq : q y = true)
    (hother : ∀ z ∈ l, z ≠ x → ∀ w, F z = some w → q w = false) :
    (l.filterMap F).filter q = [y] := by
  induction l with
  | nil => cases hx
  | cons b t ih =>
    have hndt : b ∉ t ∧ t.Nodup := by simpa using hnd
    rcases List.mem_cons.mp hx with hxb | hxt
    · subst hxb
      rw [List.filterMap_cons, hFx]
      rw [List.filter_cons, if_pos hq]
      have hrest : (t.filterMap F).filter q = [] := by
        rw [List.filter_eq_nil_iff]
        intro w hw
        rcases List.mem_filterMap.mp hw with ⟨z, hz, hFz⟩
        have hzx : z ≠ x := fun he => hndt.1 (he ▸ hz)
        simp [hother z (List.mem_cons_of_mem x hz) hzx w hFz]
      rw [hrest]
    · have hbx : b ≠ x := fun he => hndt.1 (he ▸ hxt)
      have hdrop : ∀ w, F b = some w → q w = false :=
        hother b (List.mem_cons_self b t) hbx
      have hrec := ih hxt hndt.2
        (fun z hz hzx w hFz => hother z (List.mem_cons_of_mem b hz) hzx w hFz)
      cases hFb : F b with
      | none => rw [List.filterMap_cons, hFb]; exact hrec
      | some w =>
        rw [List.filterMap_cons, hFb, List.filter_cons, if_neg (by simp [hdrop w hFb])]
        exact hrec

/-! ### `_generate_id`

```python
def _generate_id(prefix='saf-'):
    chars = '-abcdefghijklmnopqrstuvwxyz1234567890'
    return prefix + ''.join(choice(chars) for _ in range(25)) + choice(chars[1:])
```

`idAlphabet` is the char list of the Python string `chars`; position `i` of
the random portion draws `chars[pick i % len]`, the trailing character draws
from `chars[1:]`. -/

def idAlphabet : List Char :=
  ['-', 'a', 'b', 'c', 'd', 'e', 'f', 'g', 'h', 'i', 'j', 'k', 'l', 'm',
   'n', 'o', 'p', 'q', 'r', 's', 't', 'u', 'v', 'w', 'x', 'y', 'z',
   '1', '2', '3', '4', '5', '6', '7', '8', '9', '0']

def choiceFrom (s : List Char) (k : Nat) : Char := s.getD (k % s.length) 'a'

def generate_id_chars (pick : Nat → Nat) : List Char :=
  ((List.range 25).map fun i => choiceFrom idAlphabet (pick i))
    ++ [choiceFrom idAlphabet.tail (pick 25)]

def generate_id (pre : String) (pick : Nat → Nat) : String :=
  pre ++ String.mk (generate_id_chars pick)

theorem choiceFrom_mem (s : List Char) (k : Nat) (h : s ≠ []) : choiceFrom s k ∈ s := by
  unfold choiceFrom
  exact getD_mem_of_lt s _ 'a' (Nat.mod_lt _ (List.length_pos.mpr h))

/-! ### `_list_sas` and account data

An `Account` bundles the fields of one service-account record returned by the
listing call together with the remote service's responses to the per-account
calls that `_create_sa_keys` later makes about it: `listKeysResp = none`
models an `HttpError` raised by the key listing (caught and logged by the
code), `listKeysResp = some ks` a successful listing returning the keys `ks`
(of every type: the code applies no `keyTypes` filter); `createResp = none`
models a failed key-creation call inside the batch (routed to the error
callback), `createResp = some pd` a successful one whose response carries
`privateKeyData = pd`. -/

inductive KeyType where
  | userManaged
  | systemManaged
deriving DecidableEq, Repr

structure Account where
  name : String
  email : String
  listKeysResp : Option (List KeyType)
  createResp : Option String
deriving DecidableEq, Repr

/-- `_list_sas`: on success returns `resp.get('accounts', [])`; an `HttpError`
is caught, logged, and converted to `[]` instead of propagating.  The input
`Except.error e` models the raised `HttpError e`; `Except.ok none` a response
without an `accounts` field; `Except.ok (some l)` a response listing `l`. -/
def list_sas : Except String (Option (List Account)) → List Account
  | Except.error _ => []
  | Except.ok none => []
  | Except.ok (some l) => l

/-! ### `_create_remaining_accounts`

```python
sa_count = len(_list_sas(iam, project))
while sa_count < 100:
    to_create = min(CHUNK_SIZE, 100 - sa_count)
    _create_accounts_batch(iam, project, to_create)
    time.sleep(DELAY_BETWEEN_CHUNKS)
    sa_count = len(_list_sas(iam, project))
```

Under the assumption that every submitted create call succeeds so that each
re-listing reports the previous count plus the batch size, the loop is the
recursion below.  Each element of the returned list is one batch request,
recorded as the pair (count observed before the batch, number of create calls
submitted in the batch). -/

def create_remaining_accounts (saCount : Nat) : List (Nat × Nat) :=
  if _h : saCount < 100 then
    (saCount, min 10 (100 - saCount)) ::
      create_remaining_accounts (saCount + min 10 (100 - saCount))
  else []
termination_by 100 - saCount
decreasing_by omega

theorem create_remaining_accounts_eq (n : Nat) :
    create_remaining_accounts n =
      if n < 100 then
        (n, min 10 (100 - n)) :: create_remaining_accounts (n + min 10 (100 - n))
      else [] := by
  rw [create_remaining_accounts]
  by_cases h : n < 100 <;> simp [h]

theorem create_remaining_accounts_spec :
    ∀ (m n : Nat), 100 - n ≤ m → n ≤ 100 →
      (create_remaining_accounts n).length = (100 - n + 9) / 10 ∧
      n + ((create_remaining_accounts n).map Prod.snd).sum = 100 ∧
      ∀ p ∈ create_remaining_accounts n, p.2 = min 10 (100 - p.1) ∧ p.1 < 100 := by
  intro m
  induction m with
  | zero =>
    intro n h1 h2
    have hn : n = 100 := by omega
    subst hn
    rw [create_remaining_accounts_eq]
    simp
  | succ m ih =>
    intro n h1 h2
    rw [create_remaining_accounts_eq]
    by_cases hn : n < 100
    · have ht : 1 ≤ min 10 (100 - n) := by omega
      obtain ⟨r1, r2, r3⟩ := ih (n + min 10 (100 - n)) (by omega) (by omega)
      rw [if_pos hn]
      refine ⟨?_, ?_, ?_⟩
      · simp only [List.length_cons, r1]; omega
      · simp only [List.map_cons, List.sum_cons]; omega
      · intro p hp
        rcases List.mem_cons.mp hp with h | h
        · subst h; exact ⟨rfl, hn⟩
        · exact r3 p h
    · rw [if_neg hn]
      refine ⟨by simp; omega, by simp; omega, by simp⟩

/-! ### `_create_sa_keys`

The key-provisioning routine is embedded as a function from its inputs (the
account list it obtained from `_list_sas`, a decode function standing for
`base64.b64decode(...).decode('utf-8')`, and the output directory `path`) to
the ordered list of side effects it performs.  Python slicing
`sa_names[i:i+10]` over `range(0, len, 10)` is the `chunks 10` function. -/

inductive Event where
  | mkdirs (path : String)
  | listKeys (saName : String) (ok : Bool)
  | createKey (saName : String) (ok : Bool)
  | writeFile (filename : String) (content : String)
  | sleep (secs : Nat)
deriving DecidableEq, Repr

def chunksAux {α : Type} (k : Nat) : Nat → List α → List (List α)
  | 0, _ => []
  | _, [] => []
  | fuel + 1, l => l.take k :: chunksAux k fuel (l.drop k)

def chunks {α : Type} (k : Nat) (l : List α) : List (List α) :=
  chunksAux k l.length l

/-- `email.split('@')[0]`: the longest prefix of `email` before the first
`'@'` (the whole string when there is none). -/
def localPart (email : String) : String :=
  String.mk (email.toList.takeWhile (fun c => c ≠ '@'))

/-- `os.path.join(path, f"{local}.json")` for a directory path without a
trailing separator. -/
def keyFilename (path email : String) : String :=
  path ++ "/" ++ localPart email ++ ".json"

/-- The dict `keys_to_create_map`: one `(name, email)` entry per account whose
key listing succeeded and returned no keys at all (`if not keys`).  Accounts
whose key listing raised are warned about and skipped. -/
def keys_to_create_map (accounts : List Account) : List (String × String) :=
  accounts.filterMap fun sa =>
    match sa.listKeysResp with
    | some [] => some (sa.name, sa.email)
    | _ => none

/-- The remote service's answer to the key-create call for service account
`n`: the `createResp` of the listed account of that name. -/
def createRespOf (accounts : List Account) (n : String) : Option String :=
  (accounts.find? (fun b => b.name == n)).bind Account.createResp

/-- `keys_to_create_map[name]` (empty string if absent, which never happens
on the names the code looks up). -/
def lookupEmail (m : List (String × String)) (n : String) : String :=
  ((m.find? (fun q => q.1 == n)).map Prod.snd).getD ""

/-- The `key_dump` list accumulated by the batch callback for one chunk:
one `(email, decoded key data)` pair per successful create response. -/
def key_dump (accounts : List Account) (m : List (String × String))
    (decode : String → String) (chunk : List String) : List (String × String) :=
  chunk.filterMap fun n =>
    (createRespOf accounts n).map fun pd => (lookupEmail m n, decode pd)

/-- One iteration of the chunk loop: the batch of create calls, then the file
writes for the dumped keys, then `time.sleep(5)`. -/
def chunkEvents (accounts : List Account) (m : List (String × String))
    (decode : String → String) (path : String) (chunk : List String) : List Event :=
  (chunk.map fun n => Event.createKey n (createRespOf accounts n).isSome)
    ++ ((key_dump accounts m decode chunk).map fun kd =>
          Event.writeFile (keyFilename path kd.1) kd.2)
    ++ [Event.sleep 5]

/-- `_create_sa_keys`, as the ordered list of side effects of one run:
`os.makedirs(path, exist_ok=True)`; early return if the account listing came
back empty; one key-listing call per account, in order; early return if no
account needs a key; then the chunked create/write/sleep loop. -/
def create_sa_keys (decode : String → String) (path : String)
    (accounts : List Account) : List Event :=
  Event.mkdirs path ::
    (if accounts = [] then []
     else
       (accounts.map fun sa => Event.listKeys sa.name sa.listKeysResp.isSome)
         ++ (if keys_to_create_map accounts = [] then []
             else
               ((chunks 10 ((keys_to_create_map accounts).map Prod.fst)).map
                   (chunkEvents accounts (keys_to_create_map accounts) decode path)).flatten))

/-! Observers over a trace. -/

/-- Names passed to key-create calls, in order (successful or not). -/
def createCalls (tr : List Event) : List String :=
  tr.filterMap fun e =>
    match e with
    | Event.createKey n _ => some n
    | _ => none

/-- Names of the keys actually created (successful create calls). -/
def createdKeys (tr : List Event) : List String :=
  tr.filterMap fun e =>
    match e with
    | Event.createKey n true => some n
    | _ => none

/-- The `(filename, content)` pairs written, in order. -/
def filesWritten (tr : List Event) : List (String × String) :=
  tr.filterMap fun e =>
    match e with
    | Event.writeFile f c => some (f, c)
    | _ => none

/-- Names passed to key-listing calls, in order. -/
def listKeysCalls (tr : List Event) : List String :=
  tr.filterMap fun e =>
    match e with
    | Event.listKeys n _ => some n
    | _ => none

/-- Number of `time.sleep` calls in the trace. -/
def sleepCount (tr : List Event) : Nat :=
  tr.countP fun e =>
    match e with
    | Event.sleep _ => true
    | _ => false

/-- Sizes of the key-creation batches a run submits. -/
def keyBatchSizes (accounts : List Account) : List Nat :=
  (chunks 10 ((keys_to_create_map accounts).map Prod.fst)).map List.length

/-! ### Chunking lemmas -/

theorem chunksAux_flatten {α : Type} (k : Nat) (hk : 0 < k) :
    ∀ (fuel : Nat) (l : List α), l.length ≤ fuel → (chunksAux k fuel l).flatten = l := by
  intro fuel
  induction fuel with
  | zero =>
    intro l h
    have hl : l = [] := List.length_eq_zero.mp (Nat.le_zero.mp h)
    subst hl; rfl
  | succ f ih =>
    intro l h
    cases l with
    | nil => rfl
    | cons a t =>
      show ((a :: t).take k :: chunksAux k f ((a :: t).drop k)).flatten = a :: t
      rw [List.flatten_cons]
      rw [ih ((a :: t).drop k) (by simp at h ⊢; omega)]
      exact List.take_append_drop k (a :: t)

theorem chunks_flatten {α : Type} (k : Nat) (hk : 0 < k) (l : List α) :
    (chunks k l).flatten = l :=
  chunksAux_flatten k hk l.length l le_rfl

theorem chunksAux_mem {α : Type} (k : Nat) (hk : 0 < k) :
    ∀ (fuel : Nat) (l : List α) (c : List α),
      c ∈ chunksAux k fuel l → c ≠ [] ∧ c.length ≤ k := by
  intro fuel
  induction fuel with
  | zero => intro l c hc; simp [chunksAux] at hc
  | succ f ih =>
    intro l c hc
    cases l with
    | nil => simp [chunksAux] at hc
    | cons a t =>
      have hc' : c ∈ (a :: t).take k :: chunksAux k f ((a :: t).drop k) := hc
      rcases List.mem_cons.mp hc' with h | h
      · subst h
        constructor
        · cases k with
          | zero => omega
          | succ k' => simp [List.take_cons]
        · simp
      · exact ih ((a :: t).drop k) c h

theorem chunks_mem {α : Type} (k : Nat) (hk : 0 < k) (l : List α) (c : List α)
    (hc : c ∈ chunks k l) : c ≠ [] ∧ c.length ≤ k :=
  chunksAux_mem k hk l.length l c hc

/-! ### Trace characterizations of `_create_sa_keys` -/

theorem createCalls_chunkEvents (accounts : List Account) (m : List (String × String))
    (decode : String → String) (path : String) (chunk : List String) :
    createCalls (chunkEvents accounts m decode path chunk) = chunk := by
  unfold createCalls chunkEvents
  rw [List.filterMap_append, List.filterMap_append, List.filterMap_map, List.filterMap_map]
  have h1 : ((fun e => match e with
      | Event.createKey n _ => some n
      | _ => none) ∘ fun n : String => Event.createKey n (createRespOf accounts n).isSome)
      = some := rfl
  have h2 : ((fun e => match e with
      | Event.createKey n _ => some n
      | _ => none) ∘ fun kd : String × String =>
        Event.writeFile (keyFilename path kd.1) kd.2)
      = fun _ => none := rfl
  rw [h1, h2, List.filterMap_some, filterMap_const_none]
  simp

theorem createdKeys_chunkEvents (accounts : List Account) (m : List (String × String))
    (decode : String → String) (path : String) (chunk : List String) :
    createdKeys (chunkEvents accounts m decode path chunk)
      = chunk.filter fun n => (createRespOf accounts n).isSome := by
  unfold createdKeys chunkEvents
  rw [List.filterMap_append, List.filterMap_append, List.filterMap_map, List.filterMap_map]
  have h1 : ((fun e => match e with
      | Event.createKey n true => some n
      | _ => none) ∘ fun n => Event.createKey n (createRespOf accounts n).isSome)
      = fun n => if (createRespOf accounts n).isSome then some n else none := by
    funext n
    cases hb : (createRespOf accounts n).isSome <;> simp [Function.comp, hb]
  rw [h1, filterMap_ite_eq_filter]
  simp [filterMap_const_none]

theorem filesWritten_chunkEvents (accounts : List Account) (m : List (String × String))
    (decode : String → String) (path : String) (chunk : List String) :
    filesWritten (chunkEvents accounts m decode path chunk)
      = (key_dump accounts m decode chunk).map fun kd =>
          (keyFilename path kd.1, kd.2) := by
  unfold filesWritten chunkEvents
  rw [List.filterMap_append, List.filterMap_append, List.filterMap_map, List.filterMap_map]
  have h1 : ((fun e => match e with
      | Event.writeFile f c => some (f, c)
      | _ => none) ∘ fun kd : String × String =>
        Event.writeFile (keyFilename path kd.1) kd.2)
      = some ∘ fun kd : String × String => (keyFilename path kd.1, kd.2) := rfl
  rw [h1, List.filterMap_eq_map]
  simp [filterMap_const_none]

theorem sleepCount_chunkEvents (accounts : List Account) (m : List (String × String))
    (decode : String → String) (path : String) (chunk : List String) :
    sleepCount (chunkEvents accounts m decode path chunk) = 1 := by
  unfold sleepCount chunkEvents
  rw [List.countP_append, List.countP_append]
  have hc : ((chunk.map fun n =>
      Event.createKey n (createRespOf accounts n).isSome).countP fun e =>
        match e with
        | Event.sleep _ => true
        | _ => false) = 0 := by
    apply List.countP_eq_zero.mpr
    intro e he
    rcases List.mem_map.mp he with ⟨n, _, rfl⟩
    simp
  have hw : (((key_dump accounts m decode chunk).map fun kd =>
      Event.writeFile (keyFilename path kd.1) kd.2).countP fun e =>
        match e with
        | Event.sleep _ => true
        | _ => false) = 0 := by
    apply List.countP_eq_zero.mpr
    intro e he
    rcases List.mem_map.mp he with ⟨kd, _, rfl⟩
    simp
  rw [hc, hw]
  rfl

theorem sum_map_one {α : Type} (L : List α) : (L.map fun _ => (1 : Nat)).sum = L.length := by
  induction L with
  | nil => rfl
  | cons a t ih => simp [ih]; omega

/-- Pushing an observer that ignores `mkdirs` and `listKeys` events through a
whole run: only the chunk loop contributes. -/
theorem filterMap_run {β : Type} (f : Event → Option β) (decode : String → String)
    (path : String) (accounts : List Account)
    (hmk : f (Event.mkdirs path) = none)
    (hlk : ∀ n b, f (Event.listKeys n b) = none) :
    (create_sa_keys decode path accounts).filterMap f
      = ((chunks 10 ((keys_to_create_map accounts).map Prod.fst)).map
          (fun c => (chunkEvents accounts (keys_to_create_map accounts) decode path c).filterMap f)).flatten := by
  have hlkmap : (f ∘ fun sa : Account => Event.listKeys sa.name sa.listKeysResp.isSome)
      = fun _ => none := funext fun sa => hlk _ _
  unfold create_sa_keys
  by_cases ha : accounts = []
  · subst ha
    simp [keys_to_create_map, chunks, chunksAux, hmk]
  · rw [if_neg ha]
    by_cases hm : keys_to_create_map accounts = []
    · rw [hm]
      rw [if_pos rfl, List.filterMap_cons_none hmk, List.append_nil,
        List.filterMap_map, hlkmap, filterMap_const_none]
      rfl
    · rw [if_neg hm, List.filterMap_cons_none hmk, List.filterMap_append,
        List.filterMap_map, hlkmap, filterMap_const_none, List.nil_append,
        List.filterMap_flatten, List.map_map]
      rfl

theorem createCalls_run (decode : String → String) (path : String)
    (accounts : List Account) :
    createCalls (create_sa_keys decode path accounts)
      = (keys_to_create_map accounts).map Prod.fst := by
  unfold createCalls
  rw [filterMap_run _ decode path accounts rfl (fun n b => rfl)]
  have h : ∀ c ∈ chunks 10 ((keys_to_create_map accounts).map Prod.fst),
      (chunkEvents accounts (keys_to_create_map accounts) decode path c).filterMap
          (fun e => match e with
            | Event.createKey n _ => some n
            | _ => none) = c := by
    intro c _
    have h0 := createCalls_chunkEvents accounts (keys_to_create_map accounts) decode path c
    unfold createCalls at h0
    exact h0
  rw [List.map_congr_left h, List.map_id', chunks_flatten 10 (by norm_num)]

theorem createdKeys_run (decode : String → String) (path : String)
    (accounts : List Account) :
    createdKeys (create_sa_keys decode path accounts)
      = ((keys_to_create_map accounts).map Prod.fst).filter
          (fun n => (createRespOf accounts n).isSome) := by
  unfold createdKeys
  rw [filterMap_run _ decode path accounts rfl (fun n b => rfl)]
  have h : ∀ c ∈ chunks 10 ((keys_to_create_map accounts).map Prod.fst),
      (chunkEvents accounts (keys_to_create_map accounts) decode path c).filterMap
          (fun e => match e with
            | Event.createKey n true => some n
            | _ => none)
        = c.filter fun n => (createRespOf accounts n).isSome := by
    intro c _
    have h0 := createdKeys_chunkEvents accounts (keys_to_create_map accounts) decode path c
    unfold createdKeys at h0
    exact h0
  rw [List.map_congr_left h, ← List.filter_flatten, chunks_flatten 10 (by norm_num)]

theorem filesWritten_run (decode : String → String) (path : String)
    (accounts : List Account) :
    filesWritten (create_sa_keys decode path accounts)
      = ((keys_to_create_map accounts).map Prod.fst).filterMap fun n =>
          (createRespOf accounts n).map fun pd =>
            (keyFilename path (lookupEmail (keys_to_create_map accounts) n), decode pd) := by
  unfold filesWritten
  rw [filterMap_run _ decode path accounts rfl (fun n b => rfl)]
  have h : ∀ c ∈ chunks 10 ((keys_to_create_map accounts).map Prod.fst),
      (chunkEvents accounts (keys_to_create_map accounts) decode path c).filterMap
          (fun e => match e with
            | Event.writeFile f c => some (f, c)
            | _ => none)
        = c.filterMap fun n =>
            (createRespOf accounts n).map fun pd =>
              (keyFilename path (lookupEmail (keys_to_create_map accounts) n), decode pd) := by
    intro c _
    have h0 := filesWritten_chunkEvents accounts (keys_to_create_map accounts) decode path c
    unfold filesWritten at h0
    rw [h0]
    unfold key_dump
    rw [List.map_filterMap]
    congr 1
    funext n
    rw [Option.map_map]
    rfl
  rw [List.map_congr_left h, ← List.filterMap_flatten, chunks_flatten 10 (by norm_num)]

theorem listKeysCalls_run (decode : String → String) (path : String)
    (accounts : List Account) :
    listKeysCalls (create_sa_keys decode path accounts) = accounts.map Account.name := by
  unfold listKeysCalls create_sa_keys
  by_cases ha : accounts = []
  · subst ha; rfl
  · rw [if_neg ha, List.filterMap_cons_none rfl, List.filterMap_append, List.filterMap_map]
    have h1 : ((fun e => match e with
        | Event.listKeys n _ => some n
        | _ => none) ∘ fun sa : Account => Event.listKeys sa.name sa.listKeysResp.isSome)
        = some ∘ Account.name := rfl
    rw [h1, List.filterMap_eq_map]
    have h2 : (if keys_to_create_map accounts = [] then []
        else ((chunks 10 ((keys_to_create_map accounts).map Prod.fst)).map
          (chunkEvents accounts (keys_to_create_map accounts) decode path)).flatten).filterMap
            (fun e => match e with
              | Event.listKeys n _ => some n
              | _ => none) = [] := by
      by_cases hm : keys_to_create_map accounts = []
      · rw [if_pos hm]; rfl
      · rw [if_neg hm, List.filterMap_flatten, List.map_map]
        apply List.flatten_eq_nil_iff.mpr
        intro l hl
        rcases List.mem_map.mp hl with ⟨c, _, rfl⟩
        show (chunkEvents accounts (keys_to_create_map accounts) decode path c).filterMap
          (fun e => match e with
            | Event.listKeys n _ => some n
            | _ => none) = []
        unfold chunkEvents
        rw [List.filterMap_append, List.filterMap_append,
          List.filterMap_map, List.filterMap_map]
        have e1 : ((fun e => match e with
            | Event.listKeys n _ => some n
            | _ => none) ∘ fun n : String =>
              Event.createKey n (createRespOf accounts n).isSome)
            = fun _ => none := rfl
        have e2 : ((fun e => match e with
            | Event.listKeys n _ => some n
            | _ => none) ∘ fun kd : String × String =>
              Event.writeFile (keyFilename path kd.1) kd.2)
            = fun _ => none := rfl
        rw [e1, e2, filterMap_const_none, filterMap_const_none]
        rfl
    rw [h2, List.append_nil]

theorem sleepCount_run (decode : String → String) (path : String)
    (accounts : List Account) :
    sleepCount (create_sa_keys decode path accounts) = (keyBatchSizes accounts).length := by
  unfold create_sa_keys keyBatchSizes
  by_cases ha : accounts = []
  · subst ha
    simp [sleepCount, keys_to_create_map, chunks, chunksAux]
  · rw [if_neg ha]
    have hhead : ∀ rest : List Event,
        sleepCount (Event.mkdirs path :: rest) = sleepCount rest := fun _ => rfl
    rw [hhead]
    unfold sleepCount
    rw [List.countP_append]
    have h1 : ((accounts.map fun sa =>
        Event.listKeys sa.name sa.listKeysResp.isSome).countP fun e =>
          match e with
          | Event.sleep _ => true
          | _ => false) = 0 := by
      apply List.countP_eq_zero.mpr
      intro e he
      rcases List.mem_map.mp he with ⟨sa, _, rfl⟩
      simp
    rw [h1]
    by_cases hm : keys_to_create_map accounts = []
    · rw [hm]
      simp [chunks, chunksAux]
    · rw [if_neg hm, List.countP_flatten, List.map_map]
      have h2 : ∀ c ∈ chunks 10 ((keys_to_create_map accounts).map Prod.fst),
          ((chunkEvents accounts (keys_to_create_map accounts) decode path c).countP fun e =>
            match e with
            | Event.sleep _ => true
            | _ => false) = 1 := by
        intro c _
        have h0 := sleepCount_chunkEvents accounts (keys_to_create_map accounts) decode path c
        unfold sleepCount at h0
        exact h0
      have h2' : ∀ c ∈ chunks 10 ((keys_to_create_map accounts).map Prod.fst),
          ((List.countP fun e =>
            match e with
            | Event.sleep _ => true
            | _ => false) ∘ chunkEvents accounts (keys_to_create_map accounts) decode path) c
            = 1 := h2
      rw [List.map_congr_left h2', sum_map_one, List.length_map]
      omega

/-! ### Structural lemmas about `keys_to_create_map` -/

theorem keys_to_create_map_eq (accounts : List Account) :
    keys_to_create_map accounts
      = (accounts.filter fun sa => sa.listKeysResp == some []).map
          fun sa => (sa.name, sa.email) := by
  unfold keys_to_create_map
  rw [← filterMap_ite_eq_filter_map]
  congr 1
  funext sa
  cases hk : sa.listKeysResp with
  | none => simp
  | some ks =>
    cases ks with
    | nil => simp
    | cons k t => simp

theorem ktc_names_nodup (accounts : List Account)
    (h : (accounts.map Account.name).Nodup) :
    ((keys_to_create_map accounts).map Prod.fst).Nodup := by
  have hsub : List.Sublist ((keys_to_create_map accounts).map Prod.fst)
      (accounts.map Account.name) := by
    rw [keys_to_create_map_eq, List.map_map]
    have hc : ((fun p : String × String => p.1) ∘ fun sa : Account => (sa.name, sa.email))
        = Account.name := rfl
    rw [hc]
    exact (List.filter_sublist _).map _
  exact h.sublist hsub

theorem mem_ktc (accounts : List Account) (a : Account) (hmem : a ∈ accounts)
    (hk : a.listKeysResp = some []) :
    (a.name, a.email) ∈ keys_to_create_map accounts := by
  unfold keys_to_create_map
  exact List.mem_filterMap.mpr ⟨a, hmem, by rw [hk]⟩

theorem ktc_sound (accounts : List Account) (q : String × String)
    (hq : q ∈ keys_to_create_map accounts) :
    ∃ b ∈ accounts, b.name = q.1 ∧ b.email = q.2 ∧ b.listKeysResp = some [] := by
  unfold keys_to_create_map at hq
  rcases List.mem_filterMap.mp hq with ⟨b, hb, hfb⟩
  refine ⟨b, hb, ?_⟩
  cases hk : b.listKeysResp with
  | none => rw [hk] at hfb; cases hfb
  | some ks =>
    cases ks with
    | nil =>
      rw [hk] at hfb
      have hq2 : (b.name, b.email) = q := by
        injection hfb
      exact ⟨by rw [← hq2], by rw [← hq2], rfl⟩
    | cons k t => rw [hk] at hfb; cases hfb

theorem createRespOf_eq (accounts : List Account) (a : Account) (hmem : a ∈ accounts)
    (hnd : (accounts.map Account.name).Nodup) :
    createRespOf accounts a.name = a.createResp := by
  unfold createRespOf
  have h := find?_key_unique Account.name accounts a hmem hnd
  have h2 : accounts.find? (fun b => b.name == a.name) = some a := h
  rw [h2]
  rfl

theorem lookupEmail_eq (accounts : List Account) (b : Account) (hb : b ∈ accounts)
    (hnd : (accounts.map Account.name).Nodup) (hcond : b.listKeysResp = some []) :
    lookupEmail (keys_to_create_map accounts) b.name = b.email := by
  unfold lookupEmail
  have hmem : (b.name, b.email) ∈ keys_to_create_map accounts := mem_ktc accounts b hb hcond
  have hnd2 : ((keys_to_create_map accounts).map Prod.fst).Nodup := ktc_names_nodup accounts hnd
  have h := find?_key_unique Prod.fst (keys_to_create_map accounts) (b.name, b.email) hmem hnd2
  have h2 : (keys_to_create_map accounts).find? (fun q => q.1 == b.name)
      = some (b.name, b.email) := h
  rw [h2]
  rfl

/-! ### Remote-state view of key provisioning, for idempotence

`SAState` is the remote service's record for one service account.  An
error-free run of `_create_sa_keys` observes `obsOf payload st` (every key
listing succeeds and reports the current keys; every create call succeeds,
returning `payload s.name` as private key data) and leaves the service in
state `stepState st`: the create call made for each account whose key list
was empty adds one user-managed key (the `keys().create` endpoint creates
user-managed keys). -/

structure SAState where
  name : String
  email : String
  keys : List KeyType
deriving DecidableEq, Repr

def obsAccount (payload : String → String) (s : SAState) : Account :=
  { name := s.name, email := s.email,
    listKeysResp := some s.keys, createResp := some (payload s.name) }

def obsOf (payload : String → String) (st : List SAState) : List Account :=
  st.map (obsAccount payload)

def stepState (st : List SAState) : List SAState :=
  st.map fun s => if s.keys = [] then { s with keys := [KeyType.userManaged] } else s

theorem ktc_obs (payload : String → String) (st : List SAState) :
    keys_to_create_map (obsOf payload st)
      = (st.filter fun s => s.keys == []).map fun s => (s.name, s.email) := by
  unfold keys_to_create_map obsOf
  rw [List.filterMap_map]
  have h : ((fun sa : Account =>
      match sa.listKeysResp with
      | some [] => some (sa.name, sa.email)
      | _ => none) ∘ obsAccount payload)
      = fun s : SAState => if (s.keys == []) then some (s.name, s.email) else none := by
    funext s
    show (match (obsAccount payload s).listKeysResp with
      | some [] => some ((obsAccount payload s).name, (obsAccount payload s).email)
      | _ => none) = if (s.keys == []) then some (s.name, s.email) else none
    cases hk : s.keys with
    | nil => simp [obsAccount, hk]
    | cons k t => simp [obsAccount, hk]
  rw [h, filterMap_ite_eq_filter_map]

theorem createRespOf_obs_isSome (payload : String → String) (st : List SAState)
    (n : String) (h : ∃ s ∈ st, s.name = n) :
    (createRespOf (obsOf payload st) n).isSome = true := by
  rcases h with ⟨s, hs, rfl⟩
  unfold createRespOf
  have h1 : ((obsOf payload st).find? fun b => b.name == s.name).isSome := by
    apply List.find?_isSome.mpr
    exact ⟨obsAccount payload s, List.mem_map.mpr ⟨s, hs, rfl⟩, by simp [obsAccount]⟩
  rcases Option.isSome_iff_exists.mp h1 with ⟨b, hb⟩
  have hbmem := List.mem_of_find?_eq_some hb
  rcases List.mem_map.mp hbmem with ⟨s2, _, rfl⟩
  rw [hb]
  rfl

theorem stepState_keys_ne (st : List SAState) (s : SAState) (hs : s ∈ stepState st) :
    s.keys ≠ [] := by
  unfold stepState at hs
  rcases List.mem_map.mp hs with ⟨t, _, rfl⟩
  by_cases hk : t.keys = []
  · simp [hk]
  · simp [hk]

theorem ktc_stepState (payload : String → String) (st : List SAState) :
    keys_to_create_map (obsOf payload (stepState st)) = [] := by
  rw [ktc_obs]
  have h : (stepState st).filter (fun s => s.keys == []) = [] := by
    rw [List.filter_eq_nil_iff]
    intro s hs
    simp [stepState_keys_ne st s hs]
  rw [h]
  rfl

/-! ### The authentication phase of `serviceaccountfactory`

```python
creds = None
if os.path.exists(token):
    with open(token, 'rb') as t:
        creds = pickle.load(t)
if not creds or not creds.valid:
    if creds and creds.expired and creds.refresh_token:
        creds.refresh(Request())
    else:
        flow = InstalledAppFlow.from_client_secrets_file(credentials, SCOPES)
        ... fetch_token ...
        creds = flow.credentials
    with open(token, 'wb') as t:
        pickle.dump(creds, t)
iam = build('iam', 'v1', credentials=creds)
```

`TokenCache.absent` models a missing token file (`creds` stays `None`);
`TokenCache.loaded valid expired hasRefresh` a loaded credential object with
those three attributes.  `auth_phase credsPresent tc` returns the ordered
events of the phase and whether it aborted: `from_client_secrets_file` opens
the credentials file first (`readCredsFile`) and raises `FileNotFoundError`
when the file is absent, which no caller catches, so the interpreter
terminates with exit code 1 before any network traffic; `refreshCall` and
`flowNetwork` are the network calls of the two repair branches, and
`buildClient` stands for constructing the API client and the API calls that
follow. -/

inductive TokenCache where
  | absent
  | loaded (valid expired hasRefresh : Bool)
deriving DecidableEq, Repr

inductive AuthEvent where
  | loadCache
  | refreshCall
  | readCredsFile
  | flowNetwork
  | writeCache
  | buildClient
deriving DecidableEq, Repr

def loadEvents : TokenCache → List AuthEvent
  | TokenCache.absent => []
  | TokenCache.loaded _ _ _ => [AuthEvent.loadCache]

def auth_phase (credsPresent : Bool) (tc : TokenCache) : List AuthEvent × Bool :=
  match tc with
  | TokenCache.loaded true _ _ => (loadEvents tc ++ [AuthEvent.buildClient], false)
  | TokenCache.loaded false true true =>
      (loadEvents tc ++ [AuthEvent.refreshCall, AuthEvent.writeCache,
        AuthEvent.buildClient], false)
  | _ =>
      if credsPresent then
        (loadEvents tc ++ [AuthEvent.readCredsFile, AuthEvent.flowNetwork,
          AuthEvent.writeCache, AuthEvent.buildClient], false)
      else (loadEvents tc ++ [AuthEvent.readCredsFile], true)

def isNetworkEvent : AuthEvent → Bool
  | AuthEvent.refreshCall => true
  | AuthEvent.flowNetwork => true
  | AuthEvent.buildClient => true
  | _ => false

def networkEvents (tr : List AuthEvent) : List AuthEvent := tr.filter isNetworkEvent

/-- Whether the run reaches the interactive-flow branch: `creds` is `None`
or invalid, and not (expired with a refresh token). -/
def flowBranch : TokenCache → Bool
  | TokenCache.loaded true _ _ => false
  | TokenCache.loaded false true true => false
  | _ => true

/-! ### Concrete accounts used in counterexamples and witnesses -/

def acctA : Account :=
  { name := "projects/proj/serviceAccounts/alpha@proj.iam.gserviceaccount.com"
    email := "alpha@proj.iam.gserviceaccount.com"
    listKeysResp := some []
    createResp := some "UEsK" }

def acctB : Account :=
  { name := "projects/proj/serviceAccounts/beta@proj.iam.gserviceaccount.com"
    email := "beta@proj.iam.gserviceaccount.com"
    listKeysResp := some []
    createResp := some "QkJC" }

def acctSys : Account :=
  { name := "projects/proj/serviceAccounts/gamma@proj.iam.gserviceaccount.com"
    email := "gamma@proj.iam.gserviceaccount.com"
    listKeysResp := some [KeyType.systemManaged]
    createResp := some "R0cK" }

def acctUM : Account :=
  { name := "projects/proj/serviceAccounts/delta@proj.iam.gserviceaccount.com"
    email := "delta@proj.iam.gserviceaccount.com"
    listKeysResp := some [KeyType.userManaged]
    createResp := some "WFhY" }

/-! ### The claims -/

/-- C2: when the service initially reports `n` accounts (`n < 100`), never
errors, and every submitted create call succeeds (so every re-listing
reports the previous count plus the submitted batch size),
`_create_remaining_accounts` issues exactly `(100 - n + 9) / 10`
(= ceil((100-n)/10)) batch requests; each batch, issued at reported count
`p.1 < 100`, submits `p.2 = min 10 (100 - p.1)` create calls; and the loop
terminates with exactly 100 accounts reported. -/
theorem claim2_batches (n : Nat) (h : n < 100) :
    (create_remaining_accounts n).length = (100 - n + 9) / 10 ∧
    n + ((create_remaining_accounts n).map Prod.snd).sum = 100 ∧
    ∀ p ∈ create_remaining_accounts n, p.2 = min 10 (100 - p.1) ∧ p.1 < 100 :=
  create_remaining_accounts_spec (100 - n) n le_rfl (Nat.le_of_lt h)

theorem claim2_witness :
    93 < 100 ∧
    ((create_remaining_accounts 93).length = (100 - 93 + 9) / 10 ∧
     93 + ((create_remaining_accounts 93).map Prod.snd).sum = 100 ∧
     ∀ p ∈ create_remaining_accounts 93, p.2 = min 10 (100 - p.1) ∧ p.1 < 100) :=
  ⟨by norm_num, claim2_batches 93 (by norm_num)⟩

/-- C3 as stated is false: the 25 random draws all come from the full
alphabet `'-abcdefghijklmnopqrstuvwxyz1234567890'`, hyphen included, so the
FIRST character of the random portion can be a hyphen — witnessed by the
choice oracle that always picks index 0.  (Only the trailing character is
drawn from `chars[1:]`.) -/
theorem claim3_counterexample :
    ¬ ∀ pick : Nat → Nat, (generate_id_chars pick).headD 'a' ≠ '-' :=
  fun h => h (fun _ => 0) (by decide)

/-- C3 amended: the random portion has exactly 26 characters: 25 drawn from
{a-z, 0-9, -} followed by 1 trailing character drawn from {a-z, 0-9}; the
LAST character is never a hyphen (the trailing draw comes from `chars[1:]`),
but the first character may be any alphabet character, hyphen included; the
identifier is the fixed prefix followed by the random portion. -/
theorem claim3_amended (pre : String) (pick : Nat → Nat) :
    (generate_id_chars pick).length = 26 ∧
    (∀ c ∈ (generate_id_chars pick).take 25, c ∈ idAlphabet) ∧
    (generate_id_chars pick).getLastD 'a' ∈ idAlphabet.tail ∧
    (generate_id_chars pick).getLastD 'a' ≠ '-' ∧
    generate_id pre pick = pre ++ String.mk (generate_id_chars pick) := by
  have hlast : (generate_id_chars pick).getLastD 'a'
      = choiceFrom idAlphabet.tail (pick 25) := by
    unfold generate_id_chars
    exact List.getLastD_concat _ _ _
  have hmemtail : choiceFrom idAlphabet.tail (pick 25) ∈ idAlphabet.tail :=
    choiceFrom_mem idAlphabet.tail (pick 25) (by decide)
  refine ⟨?_, ?_, ?_, ?_, rfl⟩
  · simp [generate_id_chars]
  · intro c hc
    unfold generate_id_chars at hc
    rw [List.take_left' (by simp)] at hc
    rcases List.mem_map.mp hc with ⟨i, _, rfl⟩
    exact choiceFrom_mem idAlphabet (pick i) (by decide)
  · rw [hlast]
    exact hmemtail
  · rw [hlast]
    intro heq
    have : ('-' : Char) ∈ idAlphabet.tail := heq ▸ hmemtail
    simp [idAlphabet] at this

/-- C4: `_list_sas` catches a failed listing call and returns `[]` instead
of propagating the exception; `_create_remaining_accounts` then takes
`len([]) = 0` as the current count, and since `0 < 100` its first loop
iteration submits a batch of `min 10 (100 - 0) = 10` create calls — even
when the project actually already holds 100 accounts. -/
theorem claim4_swallow (e : String) :
    list_sas (Except.error e) = [] ∧
    (create_remaining_accounts (list_sas (Except.error e)).length).headD (0, 0)
      = (0, 10) := by
  refine ⟨rfl, ?_⟩
  show (create_remaining_accounts 0).headD (0, 0) = (0, 10)
  rw [create_remaining_accounts_eq]
  norm_num

/-- C5 as stated is false: nothing in `serviceaccountfactory` checks that
the credentials file exists up front.  With a valid cached token and the
credentials file absent, the run does not abort: the cached token is used
as-is, the credentials file is never read, and the client build / API calls
proceed. -/
theorem claim5_counterexample :
    (auth_phase false (TokenCache.loaded true false false)).2 = false ∧
    AuthEvent.buildClient ∈ (auth_phase false (TokenCache.loaded true false false)).1 ∧
    AuthEvent.readCredsFile ∉ (auth_phase false (TokenCache.loaded true false false)).1 := by
  decide

/-- C5 amended: if the credentials file is absent AND the cached token
provides neither a valid credential nor an expired one with a refresh token
(i.e. the interactive-flow branch is reached), the run stops at
`from_client_secrets_file` with an unhandled `FileNotFoundError` — the
interpreter exits with code 1 — before any network call: the trace ends at
the credentials-file read and contains no network event.  With a valid
cached token, however, the run does not abort at all. -/
theorem claim5_amended (tc : TokenCache) (e r : Bool) (h : flowBranch tc = true) :
    auth_phase false tc = (loadEvents tc ++ [AuthEvent.readCredsFile], true) ∧
    networkEvents (auth_phase false tc).1 = [] ∧
    (auth_phase false (TokenCache.loaded true e r)).2 = false := by
  cases tc with
  | absent => cases e <;> cases r <;> decide
  | loaded v ex hr =>
    cases v <;> cases ex <;> cases hr <;> cases e <;> cases r <;>
      first
      | exact absurd h (by decide)
      | decide

theorem claim5_witness :
    flowBranch TokenCache.absent = true ∧
    (auth_phase false TokenCache.absent
        = (loadEvents TokenCache.absent ++ [AuthEvent.readCredsFile], true) ∧
     networkEvents (auth_phase false TokenCache.absent).1 = [] ∧
     (auth_phase false (TokenCache.loaded true false false)).2 = false) :=
  ⟨by decide, claim5_amended TokenCache.absent false false (by decide)⟩

/-- C9: the token cache file is rewritten exactly when the token was
refreshed or newly created by the interactive flow (the `pickle.dump` is
inside the `if not creds or not creds.valid` block, after either repair
branch), and when the loaded token is valid the phase is exactly
load-then-proceed: the token is used as-is and the cache file is not
rewritten. -/
theorem claim9_cache_write (cp e r : Bool) (tc : TokenCache) :
    (AuthEvent.writeCache ∈ (auth_phase cp tc).1 ↔
      (AuthEvent.refreshCall ∈ (auth_phase cp tc).1 ∨
       AuthEvent.flowNetwork ∈ (auth_phase cp tc).1)) ∧
    auth_phase cp (TokenCache.loaded true e r)
      = ([AuthEvent.loadCache, AuthEvent.buildClient], false) := by
  cases tc with
  | absent => cases cp <;> cases e <;> cases r <;> decide
  | loaded v ex hr =>
    cases v <;> cases ex <;> cases hr <;> cases cp <;> cases e <;> cases r <;> decide

/-- C10: when the account listing comes back empty — in particular when the
listing call failed and `_list_sas` converted the error to `[]` —
`_create_sa_keys` returns right after `os.makedirs(path, exist_ok=True)`:
the whole trace is the single directory-creation effect, so no key-listing
call, no key-creation call and no file write happens. -/
theorem claim10_empty_listing (decode : String → String) (p e : String) :
    create_sa_keys decode p (list_sas (Except.error e)) = [Event.mkdirs p] ∧
    create_sa_keys decode p [] = [Event.mkdirs p] ∧
    listKeysCalls [Event.mkdirs p] = [] ∧
    createCalls [Event.mkdirs p] = [] ∧
    filesWritten [Event.mkdirs p] = [] :=
  ⟨rfl, rfl, rfl, rfl, rfl⟩

/-- C7: key provisioning is idempotent.  Over remote state `st`, an
error-free run creates keys exactly for the accounts whose key list is
empty, leaving the service in state `stepState st` (each such account now
holds one user-managed key); a second error-free run over `stepState st`
finds no account without keys, so it issues no key-create call and writes
no file. -/
theorem claim7_idempotent (decode : String → String) (p : String)
    (payload payload2 : String → String) (st : List SAState) :
    createdKeys (create_sa_keys decode p (obsOf payload st))
      = ((st.filter fun s => s.keys == []).map SAState.name) ∧
    createCalls (create_sa_keys decode p (obsOf payload2 (stepState st))) = [] ∧
    filesWritten (create_sa_keys decode p (obsOf payload2 (stepState st))) = [] := by
  refine ⟨?_, ?_, ?_⟩
  · rw [createdKeys_run, ktc_obs, List.map_map]
    have hfst : ((Prod.fst : String × String → String) ∘
        fun s : SAState => (s.name, s.email)) = SAState.name := rfl
    rw [hfst]
    apply List.filter_eq_self.mpr
    intro n hn
    rcases List.mem_map.mp hn with ⟨s, hs, rfl⟩
    exact createRespOf_obs_isSome payload st s.name ⟨s, (List.mem_filter.mp hs).1, rfl⟩
  · rw [createCalls_run, ktc_stepState]
    rfl
  · rw [filesWritten_run, ktc_stepState]
    rfl

/-- C8 as stated is false: missing keys are not created one account at a
time with a sleep between consecutive accounts.  With two key-less accounts
the run submits ONE batch containing both create calls and sleeps exactly
once, after the batch; no batch of size 1 per account exists. -/
theorem claim8_counterexample :
    keyBatchSizes [acctA, acctB] = [2] ∧
    sleepCount (create_sa_keys (fun s => s) "accounts" [acctA, acctB]) = 1 ∧
    ¬ (∀ b ∈ keyBatchSizes [acctA, acctB], b = 1) := by
  decide

/-- C8 amended: key listing is sequential, one call per account in listing
order; the missing keys are then created in batches of at most 10 (each
batch nonempty, sizes summing to the number of key-less accounts), with a
single fixed `time.sleep(5)` after each batch: the number of sleeps equals
the number of batches, not the number of accounts. -/
theorem claim8_amended (decode : String → String) (p : String)
    (accounts : List Account) :
    listKeysCalls (create_sa_keys decode p accounts) = accounts.map Account.name ∧
    (∀ b ∈ keyBatchSizes accounts, 1 ≤ b ∧ b ≤ 10) ∧
    (keyBatchSizes accounts).sum = (keys_to_create_map accounts).length ∧
    sleepCount (create_sa_keys decode p accounts) = (keyBatchSizes accounts).length := by
  refine ⟨listKeysCalls_run decode p accounts, ?_, ?_, sleepCount_run decode p accounts⟩
  · intro b hb
    unfold keyBatchSizes at hb
    rcases List.mem_map.mp hb with ⟨c, hc, rfl⟩
    obtain ⟨h1, h2⟩ := chunks_mem 10 (by norm_num) _ c hc
    exact ⟨List.length_pos.mpr h1, h2⟩
  · unfold keyBatchSizes
    rw [← List.length_flatten, chunks_flatten 10 (by norm_num), List.length_map]

/-- C1 as stated is false: the code lists keys with no `keyTypes` filter and
skips on `if not keys`, so system-managed keys DO count as "already has a
key".  An account whose key listing returns one system-managed key and zero
user-managed keys is skipped: the run issues no create call at all and
writes no file — not "exactly one" of each as the claim requires. -/
theorem claim1_counterexample :
    (∀ k ∈ [KeyType.systemManaged], k ≠ KeyType.userManaged) ∧
    createCalls (create_sa_keys (fun s => s) "accounts" [acctSys]) = [] ∧
    filesWritten (create_sa_keys (fun s => s) "accounts" [acctSys]) = [] := by
  decide

/-- C1 amended: for every account whose key listing succeeds and returns
zero keys OF ANY TYPE (the code's `if not keys` check) and whose create call
succeeds with private key data `pd`, one run creates exactly one key for
that account and writes exactly one file `{path}/{local-part}.json` whose
content is the decoded payload — provided account names are unique and no
other account maps to the same output file. -/
theorem claim1_amended (decode : String → String) (p : String)
    (accounts : List Account) (a : Account) (pd : String)
    (hmem : a ∈ accounts)
    (hnd : (accounts.map Account.name).Nodup)
    (hk : a.listKeysResp = some [])
    (hcr : a.createResp = some pd)
    (hfile : ∀ b ∈ accounts, b.name ≠ a.name →
      keyFilename p b.email ≠ keyFilename p a.email) :
    (createdKeys (create_sa_keys decode p accounts)).count a.name = 1 ∧
    (filesWritten (create_sa_keys decode p accounts)).filter
        (fun fc => fc.1 == keyFilename p a.email)
      = [(keyFilename p a.email, decode pd)] := by
  have hnames_nd : ((keys_to_create_map accounts).map Prod.fst).Nodup :=
    ktc_names_nodup accounts hnd
  have hmemn : a.name ∈ (keys_to_create_map accounts).map Prod.fst :=
    List.mem_map.mpr ⟨(a.name, a.email), mem_ktc accounts a hmem hk, rfl⟩
  have hcro : createRespOf accounts a.name = some pd := by
    rw [createRespOf_eq accounts a hmem hnd, hcr]
  constructor
  · rw [createdKeys_run]
    have hnd2 : (((keys_to_create_map accounts).map Prod.fst).filter
        (fun n => (createRespOf accounts n).isSome)).Nodup :=
      hnames_nd.sublist (List.filter_sublist _)
    have hmem2 : a.name ∈ ((keys_to_create_map accounts).map Prod.fst).filter
        (fun n => (createRespOf accounts n).isSome) :=
      List.mem_filter.mpr ⟨hmemn, by rw [hcro]; rfl⟩
    exact List.count_eq_one_of_mem hnd2 hmem2
  · rw [filesWritten_run]
    refine filter_filterMap_single _ a.name _ _ _ hmemn hnames_nd ?_ ?_ ?_
    · rw [hcro]
      show some (keyFilename p (lookupEmail (keys_to_create_map accounts) a.name),
        decode pd) = _
      rw [lookupEmail_eq accounts a hmem hnd hk]
    · simp
    · intro z hz hzne w hFw
      rcases List.mem_map.mp hz with ⟨q, hq, rfl⟩
      rcases ktc_sound accounts q hq with ⟨b, hbmem, hbname, hbemail, hbresp⟩
      rcases Option.map_eq_some'.mp hFw with ⟨pd2, hpd2, hw⟩
      have hlk : lookupEmail (keys_to_create_map accounts) q.1 = b.email := by
        rw [← hbname]
        exact lookupEmail_eq accounts b hbmem hnd hbresp
      have hba : b.name ≠ a.name := by
        rw [hbname]; exact hzne
      have hneq := hfile b hbmem hba
      rw [← hw]
      show ((keyFilename p (lookupEmail (keys_to_create_map accounts) q.1), decode pd2).1
        == keyFilename p a.email) = false
      rw [hlk]
      simp only [beq_eq_false_iff_ne, ne_eq]
      exact hneq

theorem claim1_witness :
    acctA ∈ [acctA] ∧
    ([acctA].map Account.name).Nodup ∧
    acctA.listKeysResp = some [] ∧
    acctA.createResp = some "UEsK" ∧
    (∀ b ∈ [acctA], b.name ≠ acctA.name →
      keyFilename "accounts" b.email ≠ keyFilename "accounts" acctA.email) ∧
    ((createdKeys (create_sa_keys (fun s => s) "accounts" [acctA])).count acctA.name = 1 ∧
     (filesWritten (create_sa_keys (fun s => s) "accounts" [acctA])).filter
         (fun fc => fc.1 == keyFilename "accounts" acctA.email)
       = [(keyFilename "accounts" acctA.email, "UEsK")]) :=
  ⟨by decide, by decide, rfl, rfl, by decide,
    claim1_amended (fun s => s) "accounts" [acctA] acctA "UEsK"
      (by decide) (by decide) rfl rfl (by decide)⟩

/-- C6: an account holding at least one user-managed key has a nonempty key
listing, so the `if not keys` check skips it: the run issues no create call
for that account and writes nothing to that account's output file — provided
account names are unique and no other account maps to the same output
file. -/
theorem claim6_skip (decode : String → String) (p : String)
    (accounts : List Account) (a : Account) (ks : List KeyType)
    (hmem : a ∈ accounts)
    (hnd : (accounts.map Account.name).Nodup)
    (hk : a.listKeysResp = some ks)
    (hum : KeyType.userManaged ∈ ks)
    (hfile : ∀ b ∈ accounts, b.name ≠ a.name →
      keyFilename p b.email ≠ keyFilename p a.email) :
    a.name ∉ createCalls (create_sa_keys decode p accounts) ∧
    ∀ c : String,
      (keyFilename p a.email, c) ∉ filesWritten (create_sa_keys decode p accounts) := by
  have hks : ks ≠ [] := by
    intro hnil
    subst hnil
    cases hum
  have hnotktc : ∀ b ∈ accounts, b.name = a.name → b.listKeysResp ≠ some [] := by
    intro b hbmem hbname hbresp
    have hba : b = a := List.inj_on_of_nodup_map hnd hbmem hmem (by rw [hbname])
    rw [hba, hk] at hbresp
    have : ks = [] := by injection hbresp
    exact hks this
  have hnotin : a.name ∉ (keys_to_create_map accounts).map Prod.fst := by
    intro hin
    rcases List.mem_map.mp hin with ⟨q, hq, hq1⟩
    rcases ktc_sound accounts q hq with ⟨b, hbmem, hbname, hbemail, hbresp⟩
    exact hnotktc b hbmem (by rw [hbname, hq1]) hbresp
  constructor
  · rw [createCalls_run]
    exact hnotin
  · intro c hcmem
    rw [filesWritten_run] at hcmem
    rcases List.mem_filterMap.mp hcmem with ⟨n, hn, hFn⟩
    rcases Option.map_eq_some'.mp hFn with ⟨pd2, hpd2, hw⟩
    rcases List.mem_map.mp hn with ⟨q, hq, hq1⟩
    rcases ktc_sound accounts q hq with ⟨b, hbmem, hbname, hbemail, hbresp⟩
    have hlk : lookupEmail (keys_to_create_map accounts) n = b.email := by
      rw [← hq1, ← hbname]
      exact lookupEmail_eq accounts b hbmem hnd hbresp
    have hfn : keyFilename p b.email = keyFilename p a.email := by
      have := congrArg Prod.fst hw
      rw [hlk] at this
      exact this
    have hba : b.name ≠ a.name := by
      intro hbn
      exact hnotktc b hbmem hbn hbresp
    exact hfile b hbmem hba hfn

theorem claim6_witness :
    acctUM ∈ [acctUM] ∧
    ([acctUM].map Account.name).Nodup ∧
    acctUM.listKeysResp = some [KeyType.userManaged] ∧
    KeyType.userManaged ∈ [KeyType.userManaged] ∧
    (∀ b ∈ [acctUM], b.name ≠ acctUM.name →
      keyFilename "accounts" b.email ≠ keyFilename "accounts" acctUM.email) ∧
    (acctUM.name ∉ createCalls (create_sa_keys (fun s => s) "accounts" [acctUM]) ∧
     ∀ c : String, (keyFilename "accounts" acctUM.email, c)
       ∉ filesWritten (create_sa_keys (fun s => s) "accounts" [acctUM])) :=
  ⟨by decide, by decide, rfl, by decide, by decide,
    claim6_skip (fun s => s) "accounts" [acctUM] acctUM [KeyType.userManaged]
      (by decide) (by decide) rfl (by decide) (by decide)⟩

end GenSA
